import Mathlib

set_option maxHeartbeats 1000000
set_option maxRecDepth 8000

/-!
Verification development for the in-browser voice-command classifier
(feature extractor `mfcc.ts`, realtime loop `main.ts`, classifier-boundary
worker).  JavaScript numbers are modelled as exact rationals (`ℚ`);
`Math.sqrt` is modelled by `ratSqrt`, which is exact on perfect rational
squares, positive on positive input and `0` at `0` — the only properties of
`Math.sqrt` the program relies on.
-/

/-- Binary-search integer square root, structural in its fuel (number of
candidate bits) so that the kernel can evaluate it. -/
def nsqrtAux (n : ℕ) : ℕ → ℕ → ℕ
  | 0, acc => acc
  | fuel + 1, acc =>
    if (acc + 2 ^ fuel) * (acc + 2 ^ fuel) ≤ n then nsqrtAux n fuel (acc + 2 ^ fuel)
    else nsqrtAux n fuel acc

/-- Fuel-based floor base-2 logarithm, structural in its fuel. -/
def log2Fuel : ℕ → ℕ → ℕ
  | 0, _ => 0
  | fuel + 1, n => if 2 ≤ n then log2Fuel fuel (n / 2) + 1 else 0

/-- Kernel-computable floor integer square root. -/
def nsqrt (n : ℕ) : ℕ := nsqrtAux n (log2Fuel n n / 2 + 1) 0

/-- Model of `Math.sqrt` on the nonnegative rationals this program feeds it:
exact on perfect rational squares, a positive approximation otherwise, and
`0` on nonpositive input. -/
def ratSqrt (q : ℚ) : ℚ :=
  if q ≤ 0 then 0
  else if nsqrt q.num.toNat * nsqrt q.num.toNat = q.num.toNat ∧
          nsqrt q.den * nsqrt q.den = q.den then
    (nsqrt q.num.toNat : ℚ) / (nsqrt q.den : ℚ)
  else
    ((nsqrt (q.num.toNat * q.den) : ℚ) + 1) / (q.den : ℚ)

/-! ## mfcc.ts -/

/-- mfcc.ts `isPowerOfTwo`: Meyda requires the buffer size to be a power of
two. -/
def isPowerOfTwo (n : ℕ) : Bool := decide (0 < n) && (n.land (n - 1) == 0)

/-- JS `1 << k`: the shift count is taken mod 32 and the result is a signed
32-bit integer, so `1 << 31` evaluates to `-2^31`. -/
def jsShl1 (k : ℕ) : ℤ := if k % 32 = 31 then -(2 ^ 31) else 2 ^ (k % 32)

/-- `Math.ceil(Math.log2 t)` for a natural `t ≥ 1`. -/
def clog2 (t : ℕ) : ℕ := if t ≤ 1 then 0 else Nat.log2 (t - 1) + 1

/-- mfcc.ts `pickFrameSize`, choice step: the power of two (as produced by the
JS shifts) nearest to the ~25ms target, the lower one on ties. -/
def pfsChoose (target : ℕ) : ℤ :=
  if |jsShl1 (clog2 target) - (target : ℤ)| < |jsShl1 (Nat.log2 target) - (target : ℤ)| then
    jsShl1 (clog2 target)
  else
    jsShl1 (Nat.log2 target)

/-- mfcc.ts `pickFrameSize`, clamp step: the two sequential clamps
`if (chosen < 256) chosen = 256; if (chosen > 4096) chosen = 4096`. -/
def pfsClamp (c : ℤ) : ℤ :=
  if 4096 < (if c < 256 then 256 else c) then 4096 else (if c < 256 then 256 else c)

/-- mfcc.ts `pickFrameSize`: a power-of-two frame size near ~25ms of audio,
clamped to [256, 4096].  `Math.floor(0.025 * sampleRate)` is modelled exactly
as `sampleRate * 25 / 1000` in natural-number arithmetic. -/
def pickFrameSize (sampleRate : ℕ) : ℤ :=
  pfsClamp (pfsChoose (max 1 (sampleRate * 25 / 1000)))

structure MFCCOptions where
  trimThreshold : ℚ := 3 / 1000
  allowUntrimFallback : Bool := true
  padToFrame : Bool := true
deriving DecidableEq

/-- mfcc.ts `normalize` (renamed: Mathlib already has `normalize`): scale by
the peak absolute amplitude unless the peak is below 1e-6 (the peak
accumulator starts at 1e-9). -/
def normalizeSig (x : List ℚ) : List ℚ :=
  if x.foldl (fun m v => max m |v|) (1 / 10 ^ 9) < 1 / 10 ^ 6 then x
  else x.map (fun v => v / x.foldl (fun m v => max m |v|) (1 / 10 ^ 9))

/-- mfcc.ts `trimSilence`: drop leading and trailing samples below `thr`.
The source guard `e > s` never bites because the first kept sample already
has `|·| ≥ thr`, so dropping trailing quiet samples cannot cross it. -/
def trimSilence (x : List ℚ) (thr : ℚ) : List ℚ :=
  ((x.dropWhile (fun v => decide (|v| < thr))).reverse.dropWhile
    (fun v => decide (|v| < thr))).reverse

/-- Start offsets of the sliding frames: `i = 0, hop, 2·hop, …` while
`i + frameSize ≤ len` (the loop body never runs when a frame does not fit;
`hop` is always positive at the call site since `frameSize ≥ 256`). -/
def frameStarts (len frameSize hop : ℕ) : List ℕ :=
  if frameSize ≤ len ∧ 0 < hop then
    (List.range ((len - frameSize) / hop + 1)).map (fun i => i * hop)
  else []

/-- The per-frame Meyda MFCC call is external; it is modelled as an oracle
returning `none` when the call throws (the source catches and skips such
frames) and `some coeffs` otherwise.  Only nonempty coefficient arrays are
collected (`Array.isArray(mf) && mf.length > 0`). -/
def collectMFCCs (meyda : List ℚ → Option (List ℚ)) (sig : List ℚ)
    (frameSize hop : ℕ) : List (List ℚ) :=
  (frameStarts sig.length frameSize hop).filterMap (fun i =>
    match meyda ((sig.drop i).take frameSize) with
    | some mf => if mf.length ≠ 0 then some mf else none
    | none => none)

/-- mfcc.ts step 6: if no frame produced coefficients, retry once on the tail
window `sig.subarray(sig.length - frameSize)`. -/
def tailRetry (meyda : List ℚ → Option (List ℚ)) (sig : List ℚ)
    (frameSize : ℕ) : List (List ℚ) :=
  match meyda (sig.drop (sig.length - frameSize)) with
  | some mf => if mf.length ≠ 0 then [mf] else []
  | none => []

/-- mfcc.ts step 8: per-coefficient mean and sample standard deviation across
the collected frames, concatenated as `[means, stds]`.
`D = mfccs[0].length`, `T = mfccs.length`. -/
def aggregateMFCC (mfccs : List (List ℚ)) : List ℚ :=
  (List.range (mfccs.headD []).length).map (fun d =>
    ((mfccs.map (fun row => row.getD d 0)).sum) / (mfccs.length : ℚ)) ++
  (List.range (mfccs.headD []).length).map (fun d =>
    ratSqrt (((mfccs.map (fun row =>
      (row.getD d 0 - ((mfccs.map (fun r => r.getD d 0)).sum) / (mfccs.length : ℚ)) *
      (row.getD d 0 - ((mfccs.map (fun r => r.getD d 0)).sum) / (mfccs.length : ℚ)))).sum)
      / ((max 1 (mfccs.length - 1) : ℕ) : ℚ)))

/-- Fallback step (mfcc.ts line 54): revert to the untrimmed normalized signal
when the trimmed one is shorter than a frame. -/
def fallbackStep (norm : List ℚ) (frameSize : ℕ) (opts : MFCCOptions) : List ℚ :=
  if decide ((trimSilence norm opts.trimThreshold).length < frameSize) &&
      opts.allowUntrimFallback then norm
  else trimSilence norm opts.trimThreshold

/-- Padding step (mfcc.ts line 59): zero-pad at the head to reach one frame. -/
def padStep (sig : List ℚ) (frameSize : ℕ) (opts : MFCCOptions) : List ℚ :=
  if decide (sig.length < frameSize) && opts.padToFrame then
    List.replicate (frameSize - sig.length) 0 ++ sig
  else sig

/-- mfcc.ts steps 1-5 of `extractFeaturesMonoFloat32`: normalize, trim, fall
back to the untrimmed signal if the trim left less than one frame, and head-pad
with zeros to one frame (`padded.set(sig.subarray(sig.length - copyLen),
frameSize - copyLen)` with `copyLen = sig.length`). -/
def prepSignal (float32 : List ℚ) (frameSize : ℕ) (opts : MFCCOptions) : List ℚ :=
  padStep (fallbackStep (normalizeSig float32) frameSize opts) frameSize opts

/-- mfcc.ts steps 5-6: the collected MFCC rows, with the tail-window retry when
the sliding pass collected none.  `hop = Math.floor(frameSize / 2)`. -/
def mfccsOf (meyda : List ℚ → Option (List ℚ)) (sig : List ℚ) (frameSize : ℕ) :
    List (List ℚ) :=
  if (collectMFCCs meyda sig frameSize (frameSize / 2)).isEmpty then
    tailRetry meyda sig frameSize
  else collectMFCCs meyda sig frameSize (frameSize / 2)

/-- mfcc.ts `extractFeaturesMonoFloat32` over exact rationals, with the Meyda
MFCC kernel abstracted as the `meyda` oracle.  The internal thrown error is
modelled as `Except.error`. -/
def extractFeaturesMonoFloat32 (meyda : List ℚ → Option (List ℚ))
    (float32 : List ℚ) (sampleRate : ℕ) (opts : MFCCOptions) :
    Except String (List ℚ) :=
  if (prepSignal float32 (pickFrameSize sampleRate).toNat opts).length <
      (pickFrameSize sampleRate).toNat then
    .ok (List.replicate 26 0)
  else if isPowerOfTwo (pickFrameSize sampleRate).toNat = false then
    .error "Internal error: non-power-of-two frame size selected"
  else if (mfccsOf meyda (prepSignal float32 (pickFrameSize sampleRate).toNat opts)
      (pickFrameSize sampleRate).toNat).isEmpty then
    .ok (List.replicate 26 0)
  else
    .ok (aggregateMFCC (mfccsOf meyda
      (prepSignal float32 (pickFrameSize sampleRate).toNat opts)
      (pickFrameSize sampleRate).toNat))

/-! ## Basic facts about the numeric model -/

theorem ratSqrt_nonneg (q : ℚ) : 0 ≤ ratSqrt q := by
  unfold ratSqrt
  split
  · exact le_refl 0
  · split
    · positivity
    · positivity

theorem ratSqrt_zero : ratSqrt 0 = 0 := by
  unfold ratSqrt
  simp

theorem ratSqrt_pos {q : ℚ} (hq : 0 < q) : 0 < ratSqrt q := by
  unfold ratSqrt
  have hnum : 0 < q.num := Rat.num_pos.mpr hq
  have hn : 0 < q.num.toNat := by omega
  have hd : 0 < q.den := q.den_pos
  split
  · rename_i h; exact absurd hq (not_lt.mpr h)
  · split
    · rename_i h
      have hsn : 0 < nsqrt q.num.toNat := by
        rcases Nat.eq_zero_or_pos (nsqrt q.num.toNat) with h0 | h0
        · exfalso; rw [h0] at h; omega
        · exact h0
      have hsd : 0 < nsqrt q.den := by
        rcases Nat.eq_zero_or_pos (nsqrt q.den) with h0 | h0
        · exfalso; rw [h0] at h; omega
        · exact h0
      have h1 : (0 : ℚ) < (nsqrt q.num.toNat : ℚ) := by exact_mod_cast hsn
      have h2 : (0 : ℚ) < (nsqrt q.den : ℚ) := by exact_mod_cast hsd
      positivity
    · have h2 : (0 : ℚ) < (q.den : ℚ) := by exact_mod_cast hd
      have h3 : (0 : ℚ) < (nsqrt (q.num.toNat * q.den) : ℚ) + 1 := by positivity
      positivity

theorem jsShl1_cases (k : ℕ) :
    jsShl1 k = -(2 ^ 31) ∨ ∃ m, m ≤ 30 ∧ jsShl1 k = 2 ^ m := by
  unfold jsShl1
  split
  · exact Or.inl rfl
  · rename_i h
    refine Or.inr ⟨k % 32, ?_, rfl⟩
    have := Nat.mod_lt k (show 0 < 32 by omega)
    omega

theorem pfsClamp_pow {c : ℤ}
    (h : c = -(2 ^ 31) ∨ ∃ m, m ≤ 30 ∧ c = 2 ^ m) :
    ∃ k, 8 ≤ k ∧ k ≤ 12 ∧ pfsClamp c = 2 ^ k := by
  unfold pfsClamp
  rcases h with hneg | ⟨m, hm, hpow⟩
  · refine ⟨8, by omega, by omega, ?_⟩
    have h1 : c < 256 := by rw [hneg]; norm_num
    rw [if_pos h1]
    norm_num
  · rcases lt_or_le m 8 with h8 | h8
    · -- 2^m ≤ 128 < 256, clamped up to 256
      refine ⟨8, by omega, by omega, ?_⟩
      have hle : c ≤ 2 ^ 7 := by
        rw [hpow]
        exact pow_le_pow_right₀ (by norm_num) (by omega)
      have h1 : c < 256 := by
        have : (2 : ℤ) ^ 7 = 128 := by norm_num
        omega
      rw [if_pos h1]
      norm_num
    · rcases le_or_lt m 12 with h12 | h12
      · -- in range: kept as-is
        refine ⟨m, h8, h12, ?_⟩
        have hge : (2 : ℤ) ^ 8 ≤ c := by
          rw [hpow]
          exact pow_le_pow_right₀ (by norm_num) h8
        have hle : c ≤ (2 : ℤ) ^ 12 := by
          rw [hpow]
          exact pow_le_pow_right₀ (by norm_num) h12
        have h1 : ¬ c < 256 := by
          have : (2 : ℤ) ^ 8 = 256 := by norm_num
          omega
        rw [if_neg h1]
        have h2 : ¬ 4096 < c := by
          have : (2 : ℤ) ^ 12 = 4096 := by norm_num
          omega
        rw [if_neg h2]
        exact hpow
      · -- 2^m ≥ 8192, clamped down to 4096
        refine ⟨12, by omega, by omega, ?_⟩
        have hge : (2 : ℤ) ^ 13 ≤ c := by
          rw [hpow]
          exact pow_le_pow_right₀ (by norm_num) (by omega)
        have h13 : (2 : ℤ) ^ 13 = 8192 := by norm_num
        have h1 : ¬ c < 256 := by omega
        rw [if_neg h1]
        have h2 : 4096 < c := by omega
        rw [if_pos h2]
        norm_num

theorem pickFrameSize_pow (sampleRate : ℕ) :
    ∃ k, 8 ≤ k ∧ k ≤ 12 ∧ pickFrameSize sampleRate = 2 ^ k := by
  unfold pickFrameSize
  apply pfsClamp_pow
  unfold pfsChoose
  split
  · exact jsShl1_cases _
  · exact jsShl1_cases _

/-! ## main.ts: config knobs, utils, decision smoother, realtime loop -/

def VAD_ENTER : ℚ := 5 / 1000
def VAD_EXIT : ℚ := 3 / 1000
def CONF_THRESHOLD : ℚ := 40 / 100
def PRED_WINDOW : ℕ := 5
def MFCC_OPTS : MFCCOptions :=
  { trimThreshold := 3 / 1000, allowUntrimFallback := true, padToFrame := true }

/-- main.ts `rms`: root-mean-square energy with a division guard
`Math.max(1, x.length)`. -/
def rms (x : List ℚ) : ℚ :=
  ratSqrt ((x.foldl (fun s v => s + v * v) 0) / ((max 1 x.length : ℕ) : ℚ))

/-- main.ts `argmax` inner loop: strict `>` keeps the earliest maximum. -/
def argmaxAux : List ℚ → ℕ → ℕ → ℚ → ℕ × ℚ
  | [], _, bi, bv => (bi, bv)
  | v :: rest, i, bi, bv =>
    if bv < v then argmaxAux rest (i + 1) i v else argmaxAux rest (i + 1) bi bv

/-- main.ts `argmax`: the JS seed `(0, -Infinity)` makes the head of a
nonempty vector win the first comparison; every call site length-checks the
vector (≥ 2) first, so the empty case is never reached. -/
def argmax : List ℚ → ℕ × ℚ
  | [] => (0, 0)
  | v :: rest => argmaxAux rest 1 0 v

/-- main.ts `pushPred`: append, then evict the oldest entry (`shift()`) when
the history exceeds the window. -/
def pushPred (l : List ℕ) (idx : ℕ) : List ℕ :=
  if PRED_WINDOW < (l ++ [idx]).length then (l ++ [idx]).drop 1 else l ++ [idx]

/-- Keys of the JS count `Map` in insertion order, i.e. the order of first
occurrence in the history. -/
def firstOccs : List ℕ → List ℕ
  | [] => []
  | x :: xs => x :: (firstOccs xs).filter (fun k => k != x)

/-- main.ts `majority` selection loop:
`counts.forEach((c, k) => { if (c > bestC) { bestC = c; best = k; } })` with
`(best, bestC)` initialised to `(-1, -1)`; `counts.get k` is the number of
occurrences of `k` in the history. -/
def bestLoop (l : List ℕ) : List ℕ → ℤ × ℤ → ℤ × ℤ
  | [], p => p
  | k :: ks, p =>
    if p.2 < (l.count k : ℤ) then bestLoop l ks ((k : ℤ), (l.count k : ℤ))
    else bestLoop l ks p

/-- main.ts `majority`: `null` on an empty history, otherwise the first key
(in insertion order) reaching the maximal occurrence count. -/
def majority (l : List ℕ) : Option ℤ :=
  if l.isEmpty then none else some (bestLoop l (firstOccs l) (-1, -1)).1

/-- The realtime loop's module-level decision state: `inSpeech`, the bounded
recent-prediction history `lastPreds`, the per-utterance `utteranceFired`
flag, and `lastStable` (class index 0 = LEFT, 1 = RIGHT). -/
structure LoopState where
  inSpeech : Bool
  lastPreds : List ℕ
  utteranceFired : Bool
  lastStable : Option ℤ
deriving DecidableEq

/-- main.ts `resetVotes` (the DOM updates are presentation only). -/
def resetVotes (s : LoopState) : LoopState :=
  { s with lastPreds := [], utteranceFired := false }

/-- Per-tick environment: the most recent audio window and the classifier
boundary's response to this tick's predict request (`none` models a rejected
call, which aborts the tick's continuation). -/
structure TickEnv where
  slice : List ℚ
  y : Option (List ℚ)

/-- main.ts line 228: the hysteretic VAD decision for one tick,
`!REQUIRE_VAD || (inSpeech ? e >= VAD_EXIT : e >= VAD_ENTER)`. -/
def speechNowFn (requireVad inSpeech : Bool) (e : ℚ) : Bool :=
  !requireVad || (if inSpeech then decide (VAD_EXIT ≤ e) else decide (VAD_ENTER ≤ e))

/-- main.ts lines 273-295: argmax over the (possibly normalized) score
vector, confident-vote push, majority, and the guarded single fire. -/
def tickVote (s : LoopState) (probs : List ℚ) : LoopState × Option ℤ :=
  match majority (if CONF_THRESHOLD ≤ (argmax probs).2
      then pushPred s.lastPreds (argmax probs).1 else s.lastPreds) with
  | none =>
    ({ s with lastPreds := if CONF_THRESHOLD ≤ (argmax probs).2
        then pushPred s.lastPreds (argmax probs).1 else s.lastPreds }, none)
  | some m =>
    if !s.utteranceFired && decide (CONF_THRESHOLD ≤ (argmax probs).2) then
      ({ s with
          lastPreds := if CONF_THRESHOLD ≤ (argmax probs).2
            then pushPred s.lastPreds (argmax probs).1 else s.lastPreds,
          utteranceFired := true,
          lastStable := some m }, some m)
    else
      ({ s with lastPreds := if CONF_THRESHOLD ≤ (argmax probs).2
          then pushPred s.lastPreds (argmax probs).1 else s.lastPreds }, none)

/-- main.ts lines 248-296: the body of `livePredictTick` after the VAD edge
handling — feature extraction, zero-feature guard, response validation,
normalization, argmax, vote push, majority, and the fire-once-per-utterance
emission.  The emitted value is the fired majority class index. -/
def tickBody (meyda : List ℚ → Option (List ℚ)) (sampleRate : ℕ)
    (s : LoopState) (env : TickEnv) : LoopState × Option ℤ :=
  match extractFeaturesMonoFloat32 meyda env.slice sampleRate MFCC_OPTS with
  | .error _ => (s, none)
  | .ok feats =>
    if feats.all (fun v => v == 0) then (s, none)
    else
      match env.y with
      | none => (s, none)
      | some y =>
        if y.length < 2 then (s, none)
        else
          tickVote s
            (if 1 / 10 ^ 6 < y.sum then y.map (fun v => v / y.sum) else y)

/-- main.ts `livePredictTick` (lines 216-296): VAD edges, then the tick body.
The emitted `some m` is the dispatch of the `voice-command` Decision Event. -/
def livePredictTick (meyda : List ℚ → Option (List ℚ)) (sampleRate : ℕ)
    (requireVad : Bool) (s : LoopState) (env : TickEnv) : LoopState × Option ℤ :=
  if !s.inSpeech && speechNowFn requireVad s.inSpeech (rms env.slice) then
    tickBody meyda sampleRate (resetVotes { s with inSpeech := true }) env
  else if s.inSpeech && !speechNowFn requireVad s.inSpeech (rms env.slice) then
    ({ s with inSpeech := false }, none)
  else if !s.inSpeech then (s, none)
  else tickBody meyda sampleRate s env

/-- Counts of emitted Decision Events and of Silence→Speech transitions over a
run of the realtime loop. -/
def runStats (meyda : List ℚ → Option (List ℚ)) (sampleRate : ℕ)
    (requireVad : Bool) : LoopState → List TickEnv → ℕ × ℕ
  | _, [] => (0, 0)
  | s, env :: rest =>
    ((if (livePredictTick meyda sampleRate requireVad s env).2.isSome then 1 else 0) +
      (runStats meyda sampleRate requireVad
        (livePredictTick meyda sampleRate requireVad s env).1 rest).1,
     (if !s.inSpeech && speechNowFn requireVad s.inSpeech (rms env.slice) then 1 else 0) +
      (runStats meyda sampleRate requireVad
        (livePredictTick meyda sampleRate requireVad s env).1 rest).2)

/-! ## The classifier-boundary worker -/

/-- The worker's z-score scaler: per-dimension mean and standard deviation. -/
structure Scaler where
  mu : List ℚ
  sigma : List ℚ
deriving DecidableEq

/-- worker `fitScaler`.  `Math.sqrt(v) || 1e-6` keeps the square root unless
it is exactly `0` (JS falsy), in which case the `1e-6` floor applies.  The
denominator is `Math.max(1, n - 1)` (Bessel).  Rows are assumed equal-length
(`d = X[0].length`), as at every call site. -/
def fitScaler (X : List (List ℚ)) : Scaler :=
  ⟨(List.range (X.headD []).length).map (fun j =>
      ((X.map (fun row => row.getD j 0)).sum) / (X.length : ℚ)),
   (List.range (X.headD []).length).map (fun j =>
      if ratSqrt (((X.map (fun row =>
            (row.getD j 0 - ((X.map (fun r => r.getD j 0)).sum) / (X.length : ℚ)) *
            (row.getD j 0 - ((X.map (fun r => r.getD j 0)).sum) / (X.length : ℚ)))).sum)
          / ((max 1 (X.length - 1) : ℕ) : ℚ)) = 0 then 1 / 10 ^ 6
      else ratSqrt (((X.map (fun row =>
            (row.getD j 0 - ((X.map (fun r => r.getD j 0)).sum) / (X.length : ℚ)) *
            (row.getD j 0 - ((X.map (fun r => r.getD j 0)).sum) / (X.length : ℚ)))).sum)
          / ((max 1 (X.length - 1) : ℕ) : ℚ)))⟩

/-- worker `transformOne`: `(x[j] - mu[j]) / (sigma[j] || 1e-6)`. -/
def transformOne (x : List ℚ) (sc : Scaler) : List ℚ :=
  (List.range x.length).map (fun j =>
    (x.getD j 0 - sc.mu.getD j 0) /
      (if sc.sigma.getD j 0 = 0 then 1 / 10 ^ 6 else sc.sigma.getD j 0))

/-- worker `transformX`. -/
def transformX (X : List (List ℚ)) (sc : Scaler) : List (List ℚ) :=
  X.map (fun r => transformOne r sc)

/-- worker `oneHotify`.  Labels arrive either as class indices
(`typeof y[0] === 'number'`) or as already-one-hot rows, modelled as a sum
type; an index is clamped with `Math.max(0, Math.min(k - 1, lab))`. -/
def oneHotify : List ℤ ⊕ List (List ℚ) → ℕ → List (List ℚ)
  | .inl labs, k => labs.map (fun lab =>
      (List.replicate k (0 : ℚ)).set (max 0 (min ((k : ℤ) - 1) lab)).toNat 1)
  | .inr rows, _ => rows

/-- The external ELM library behind the worker, abstracted as an interface:
model construction from the (deep-merged) options, `fit` (an error models a
throw occurring after the `model` variable was already reassigned),
the `probs1D` prediction path, and JSON (de)serialization
(`modelToJSON` / `loadModelFromJSON`). -/
structure ModelLib (J M : Type) where
  construct : Option J → M
  fit : M → List (List ℚ) → List (List ℚ) → Except String M
  predict1 : M → List ℚ → Except String (List ℚ)
  toJSON : M → J
  restore : J → Except String M

/-- The worker's module-level mutable state: `model` and `scaler`. -/
structure WState (M : Type) where
  model : Option M
  scaler : Option Scaler
deriving DecidableEq

inductive WPayload (J : Type) where
  | trainP (X : List (List ℚ)) (y : List ℤ ⊕ List (List ℚ)) (modelOptions : Option J)
  | predictP (x : List ℚ)
  | importP (modelJSON : Option J) (scaler : Option Scaler)
  | emptyP
deriving DecidableEq

/-- A boundary request: correlation id, action name, payload. -/
structure WRequest (J : Type) where
  id : String
  action : String
  payload : WPayload J
deriving DecidableEq

inductive WResult (J : Type) where
  | ready
  | trained
  | predicted (y : List ℚ)
  | exported (modelJSON : J) (scaler : Option Scaler)
  | imported
  | didReset
deriving DecidableEq

/-- A boundary response: echoed id, success flag, optional payload/error. -/
structure WResponse (J : Type) where
  id : String
  ok : Bool
  result : Option (WResult J)
  error : Option String
deriving DecidableEq

def postOk {J : Type} (id : String) (r : WResult J) : WResponse J :=
  ⟨id, true, some r, none⟩

def postErr {J : Type} (id : String) (msg : String) : WResponse J :=
  ⟨id, false, none, some msg⟩

/-- The empty-input guard of the train branch:
`if (!X?.length || !y?.length) throw ...`. -/
def trainInputsMissing (X : List (List ℚ)) (y : List ℤ ⊕ List (List ℚ)) : Bool :=
  X.isEmpty || (match y with | .inl l => l.isEmpty | .inr r => r.isEmpty)

/-- `outDim = Array.isArray(y[0]) ? y[0].length : 1`. -/
def outDimOf (y : List ℤ ⊕ List (List ℚ)) : ℕ :=
  match y with
  | .inr rows => (rows.headD []).length
  | .inl _ => 1

/-- worker `onmessage`: one request-response step over the worker state.
Thrown errors are caught by the surrounding try/catch and reported with
`ok: false`; mutations performed before the throw are kept, exactly as in the
source (in the train branch `scaler` and `model` are reassigned before
`fit` runs).  A payload whose shape does not match the action throws inside
the branch, which the catch turns into an error response with the state
unchanged. -/
def onmessage {J M : Type} (lib : ModelLib J M) (s : WState M) (msg : WRequest J) :
    WState M × WResponse J :=
  if msg.action = "init" then (s, postOk msg.id .ready)
  else if msg.action = "train" then
    match msg.payload with
    | .trainP X y opts =>
      if trainInputsMissing X y then (s, postErr msg.id "train: missing X or y")
      else
        match lib.fit (lib.construct opts) (transformX X (fitScaler X))
            (oneHotify y (outDimOf y)) with
        | .ok m1 => (⟨some m1, some (fitScaler X)⟩, postOk msg.id .trained)
        | .error e => (⟨some (lib.construct opts), some (fitScaler X)⟩, postErr msg.id e)
    | _ => (s, postErr msg.id "train: missing X or y")
  else if msg.action = "predict" then
    match s.model with
    | none => (s, postErr msg.id "Model not trained yet")
    | some m =>
      match msg.payload with
      | .predictP x =>
        match lib.predict1 m (match s.scaler with
            | some sc => transformOne x sc
            | none => x) with
        | .ok yhat => (s, postOk msg.id (.predicted yhat))
        | .error e => (s, postErr msg.id e)
      | _ => (s, postErr msg.id "predict: malformed payload")
  else if msg.action = "export" then
    match s.model with
    | none => (s, postErr msg.id "No model to export")
    | some m => (s, postOk msg.id (.exported (lib.toJSON m) s.scaler))
  else if msg.action = "import" then
    match msg.payload with
    | .importP mj sc =>
      match mj with
      | none => (s, postErr msg.id "Missing modelJSON")
      | some j =>
        match lib.restore j with
        | .ok m => (⟨some m, sc⟩, postOk msg.id .imported)
        | .error e => (s, postErr msg.id e)
    | _ => (s, postErr msg.id "Missing modelJSON")
  else if msg.action = "reset" then
    (⟨none, none⟩, postOk msg.id .didReset)
  else (s, postErr msg.id ("Unknown action: " ++ msg.action))

/-! ## Concrete instances used by witnesses and counterexamples -/

/-- A Meyda oracle on which every frame fails to produce coefficients. -/
def mey0 : List ℚ → Option (List ℚ) := fun _ => none

/-- A trivial model library (used to exercise state-discipline theorems). -/
def unitLib : ModelLib Unit Unit :=
  ⟨fun _ => (), fun _ _ _ => .ok (), fun _ x => .ok x, fun _ => (), fun _ => .ok ()⟩

/-- A concrete model library whose fitting routine throws exactly on
single-row input; the model stores its training matrix and predicts the
(scaled) input unchanged. -/
def cexLib : ModelLib Unit (List (List ℚ)) :=
  ⟨fun _ => [],
   fun _ Xs _ => if Xs.length = 1 then .error "fit failed" else .ok Xs,
   fun _ x => .ok x,
   fun _ => (),
   fun _ => .ok []⟩

/-- A concrete model library with an exact serialization round-trip. -/
def rtLib : ModelLib (List (List ℚ)) (List (List ℚ)) :=
  ⟨fun _ => [],
   fun _ Xs _ => .ok Xs,
   fun m x => .ok (m.headD [] ++ x),
   fun m => m,
   fun j => .ok j⟩

/-- Worker state after a first successful train in the C3 scenario. -/
def s0W : WState (List (List ℚ)) := ⟨none, none⟩

def trainMsg1 : WRequest Unit :=
  ⟨"t1", "train", .trainP [[0], [0], [0]] (.inl [0, 1, 0]) none⟩

def trainMsg2 : WRequest Unit :=
  ⟨"t2", "train", .trainP [[10]] (.inl [0]) none⟩

def predMsgW : WRequest Unit := ⟨"p", "predict", .predictP [1]⟩

/-- Concrete boundary state for the C6 round-trip witness. -/
def rtState : WState (List (List ℚ)) := ⟨some [[1]], some ⟨[0], [1]⟩⟩

/-! ## Helper lemmas -/

theorem foldl_sq_general (x : List ℚ) :
    ∀ a : ℚ, x.foldl (fun s v => s + v * v) a = a + (x.map (fun v => v * v)).sum := by
  induction x with
  | nil => intro a; simp
  | cons h t ih => intro a; simp [ih]; ring

theorem clampIdx_lt (k : ℕ) (hk : 1 ≤ k) (lab : ℤ) :
    (max 0 (min ((k : ℤ) - 1) lab)).toNat < k := by
  have h1 : min ((k : ℤ) - 1) lab ≤ (k : ℤ) - 1 := min_le_left _ _
  have h2 : max 0 (min ((k : ℤ) - 1) lab) ≤ (k : ℤ) - 1 := by
    apply max_le _ h1
    omega
  omega

theorem set_replicate_props (k i : ℕ) (h : i < k) :
    ((List.replicate k (0 : ℚ)).set i 1).length = k ∧
    ((List.replicate k (0 : ℚ)).set i 1).sum = 1 ∧
    ((List.replicate k (0 : ℚ)).set i 1).count 1 = 1 := by
  induction k generalizing i with
  | zero => omega
  | succ n ih =>
    cases i with
    | zero =>
      have hmem : (1 : ℚ) ∉ List.replicate n (0 : ℚ) := by
        simp [List.mem_replicate]
      refine ⟨by simp, ?_, ?_⟩
      · rw [List.replicate_succ, List.set_cons_zero, List.sum_cons,
          List.sum_replicate]
        simp
      · rw [List.replicate_succ, List.set_cons_zero, List.count_cons_self,
          List.count_eq_zero_of_not_mem hmem]
    | succ j =>
      have hj : j < n := by omega
      obtain ⟨h1, h2, h3⟩ := ih j hj
      refine ⟨?_, ?_, ?_⟩
      · rw [List.replicate_succ, List.set_cons_succ]
        simp [h1]
      · rw [List.replicate_succ, List.set_cons_succ, List.sum_cons, h2]
        simp
      · rw [List.replicate_succ, List.set_cons_succ,
          List.count_cons_of_ne (show (1 : ℚ) ≠ 0 by norm_num), h3]

/-! ## Claim theorems -/

/-- C10: the RMS energy function is total and never divides by zero: for every
sample window (the empty window included) it returns
`sqrt(sum of squared samples / max(1, length))`, a nonnegative number, the
divisor is always positive, and the empty window yields exactly `0` (an empty
capture buffer is classified as silence rather than raising an error). -/
theorem claim_C10_rms_total :
    (∀ x : List ℚ,
      rms x = ratSqrt (((x.map (fun v => v * v)).sum) / ((max 1 x.length : ℕ) : ℚ)) ∧
      0 ≤ rms x ∧ 0 < max 1 x.length) ∧
    rms ([] : List ℚ) = 0 := by
  have hfold : ∀ x : List ℚ,
      x.foldl (fun s v => s + v * v) 0 = (x.map (fun v => v * v)).sum := by
    intro x
    have := foldl_sq_general x 0
    simpa using this
  refine ⟨fun x => ⟨?_, ratSqrt_nonneg _, by omega⟩, ?_⟩
  · unfold rms
    rw [hfold]
  · unfold rms
    simpa using ratSqrt_zero

/-- C8: the voice-activity gate is a two-state hysteretic machine: in Silence
it moves to Speech exactly when the energy is at or above the enter threshold
(0.005); in Speech it moves to Silence exactly when the energy falls below the
exit threshold (0.003); the exit threshold is strictly below the enter
threshold; energies between the two leave the state unchanged; and with gating
disabled every tick is treated as speech. -/
theorem claim_C8_vad_hysteresis :
    VAD_EXIT < VAD_ENTER ∧
    (∀ e : ℚ,
      (speechNowFn true false e = true ↔ VAD_ENTER ≤ e) ∧
      (speechNowFn true true e = false ↔ e < VAD_EXIT) ∧
      (VAD_EXIT ≤ e → e < VAD_ENTER → ∀ sp, speechNowFn true sp e = sp)) ∧
    (∀ (sp : Bool) (e : ℚ), speechNowFn false sp e = true) := by
  refine ⟨by norm_num [VAD_EXIT, VAD_ENTER], fun e => ⟨?_, ?_, ?_⟩, fun sp e => ?_⟩
  · simp [speechNowFn]
  · simp [speechNowFn, not_le]
  · intro h1 h2 sp
    cases sp
    · simp [speechNowFn, not_le.mpr h2]
    · simp [speechNowFn, h1]
  · simp [speechNowFn]

/-- C8 witness: an energy strictly between the two thresholds keeps the gate
in Speech. -/
theorem claim_C8_witness : speechNowFn true true (4 / 1000) = true :=
  (claim_C8_vad_hysteresis.2.1 (4 / 1000)).2.2
    (by norm_num [VAD_EXIT]) (by norm_num [VAD_ENTER]) true

/-- C9: for every list of labels given as class indices and every class count
k ≥ 1, each row produced by `oneHotify` has length exactly k, sums to exactly
1, and has exactly one 1-valued entry — out-of-range indices are clamped into
[0, k-1]; labels already given as one-hot rows pass through unchanged. -/
theorem claim_C9_onehot (labs : List ℤ) (k : ℕ) (hk : 1 ≤ k) :
    (∀ row ∈ oneHotify (.inl labs) k,
      row.length = k ∧ row.sum = 1 ∧ row.count 1 = 1) ∧
    (∀ rows : List (List ℚ), oneHotify (.inr rows) k = rows) := by
  constructor
  · intro row hrow
    unfold oneHotify at hrow
    rw [List.mem_map] at hrow
    obtain ⟨lab, _, rfl⟩ := hrow
    exact set_replicate_props k _ (clampIdx_lt k hk lab)
  · intro rows
    rfl

/-- C9 witness: the out-of-range index 5 with k = 2 clamps to the one-hot row
[0, 1], which has length 2, sum 1 and a single 1. -/
theorem claim_C9_witness :
    oneHotify (.inl [5]) 2 = [[0, 1]] ∧
    (([0, 1] : List ℚ).length = 2 ∧ ([0, 1] : List ℚ).sum = 1 ∧
      ([0, 1] : List ℚ).count 1 = 1) :=
  ⟨by with_unfolding_all decide,
   (claim_C9_onehot [5] 2 (by norm_num)).1 [0, 1] (by with_unfolding_all decide)⟩

/-- C7: a request whose action is none of init/train/predict/export/import/
reset gets an `ok: false` response with the non-empty message
`Unknown action: …` and the echoed id, the stored model/scaler are untouched,
and every subsequent request is processed exactly as if the unknown request
had not occurred. -/
theorem claim_C7_unknown_action {J M : Type} (lib : ModelLib J M) (s : WState M)
    (msg : WRequest J)
    (h : msg.action ∉ (["init", "train", "predict", "export", "import", "reset"] : List String)) :
    onmessage lib s msg = (s, postErr msg.id ("Unknown action: " ++ msg.action)) ∧
    ("Unknown action: " ++ msg.action) ≠ "" ∧
    ∀ msg2 : WRequest J, onmessage lib (onmessage lib s msg).1 msg2 = onmessage lib s msg2 := by
  simp only [List.mem_cons, List.not_mem_nil, or_false] at h
  push_neg at h
  obtain ⟨h1, h2, h3, h4, h5, h6⟩ := h
  have hstep : onmessage lib s msg = (s, postErr msg.id ("Unknown action: " ++ msg.action)) := by
    unfold onmessage
    rw [if_neg h1, if_neg h2, if_neg h3, if_neg h4, if_neg h5, if_neg h6]
  refine ⟨hstep, ?_, ?_⟩
  · intro hEq
    have hl := congrArg String.length hEq
    rw [String.length_append] at hl
    have hc : ("Unknown action: ").length = 16 := rfl
    have hz : ("" : String).length = 0 := rfl
    rw [hc, hz] at hl
    omega
  · intro msg2
    rw [hstep]

/-- C7 witness: the unknown action `frobnicate` on a fresh boundary yields the
typed failure, and a subsequent predict behaves as if it had not happened. -/
theorem claim_C7_witness :
    onmessage unitLib ⟨none, none⟩ ⟨"w", "frobnicate", .emptyP⟩ =
      (⟨none, none⟩, postErr "w" "Unknown action: frobnicate") ∧
    onmessage unitLib (onmessage unitLib ⟨none, none⟩ ⟨"w", "frobnicate", .emptyP⟩).1
        ⟨"p", "predict", .predictP [1]⟩ =
      onmessage unitLib ⟨none, none⟩ ⟨"p", "predict", .predictP [1]⟩ := by
  have h := claim_C7_unknown_action unitLib ⟨none, none⟩ ⟨"w", "frobnicate", .emptyP⟩
    (by with_unfolding_all decide)
  exact ⟨by rw [h.1]; with_unfolding_all decide, h.2.2 ⟨"p", "predict", .predictP [1]⟩⟩

/-- The model square root is exact at 1e-18. -/
theorem ratSqrt_at_atto : ratSqrt (1 / 1000000000000000000) = 1 / 1000000000 := by
  have hs1 : nsqrt 1 = 1 := by decide
  have hs2 : nsqrt 1000000000000000000 = 1000000000 := by decide
  have hnum : (1 / 1000000000000000000 : ℚ).num = 1 := by with_unfolding_all decide
  have hden : (1 / 1000000000000000000 : ℚ).den = 1000000000000000000 := by
    with_unfolding_all decide
  have hle : ¬((1 / 1000000000000000000 : ℚ) ≤ 0) := by with_unfolding_all decide
  unfold ratSqrt
  rw [if_neg hle, hnum, hden]
  norm_num [hs1, hs2]

/-- C4 counterexample: the training set [[0], [1e-9], [2e-9]] has sample
standard deviation exactly 1e-9 in its only dimension — positive, so the JS
`|| 1e-6` floor does not apply, yet below the claimed 1e-6 bound. -/
theorem claim_C4_counterexample :
    (fitScaler [[0], [1 / 1000000000], [2 / 1000000000]]).sigma = [1 / 1000000000] ∧
    ¬ ((1 / 10 ^ 6 : ℚ) ≤ 1 / 1000000000) := by
  constructor
  · norm_num [fitScaler, List.range_succ, ratSqrt_at_atto]
  · norm_num

/-- C4 (amended): for every nonempty training set, every entry of the fitted
standard-deviation vector is strictly positive (never zero); the computed
value is floored to exactly 1e-6 only when it is exactly zero, and in
particular a single-row training set yields the constant 1e-6 vector.  The
Bessel `max(1, n-1)` denominator is part of the `fitScaler` definition.
(Entries strictly between 0 and 1e-6 are possible, so the original "≥ 1e-6"
bound fails.) -/
theorem claim_C4_amended (X : List (List ℚ)) (hX : X ≠ []) :
    (∀ s ∈ (fitScaler X).sigma, 0 < s) ∧
    (X.length = 1 →
      (fitScaler X).sigma = List.replicate (X.headD []).length (1 / 10 ^ 6)) := by
  constructor
  · intro s hs
    simp only [fitScaler] at hs
    rw [List.mem_map] at hs
    obtain ⟨j, hj, rfl⟩ := hs
    split
    · norm_num
    · rename_i hne
      exact lt_of_le_of_ne (ratSqrt_nonneg _) (Ne.symm hne)
  · intro hlen
    obtain ⟨row, rfl⟩ := List.length_eq_one.mp hlen
    simp only [fitScaler]
    rw [List.eq_replicate_iff]
    refine ⟨by simp, ?_⟩
    intro b hb
    simp only [List.mem_map] at hb
    obtain ⟨j, hj, rfl⟩ := hb
    have hz : ∀ q : ℚ, q = 0 →
        (if ratSqrt q = 0 then (1 : ℚ) / 10 ^ 6 else ratSqrt q) = 1 / 10 ^ 6 := by
      intro q hq
      rw [hq, ratSqrt_zero, if_pos rfl]
    apply hz
    simp

/-- C4 witness for the amended claim: a single-row training set gives the
constant 1e-6 standard-deviation vector (each entry positive). -/
theorem claim_C4_witness :
    (fitScaler [[5]]).sigma = List.replicate 1 (1 / 10 ^ 6) :=
  (claim_C4_amended [[5]] (by simp)).2 rfl

/-- C3 counterexample: after a successful train, a second train whose model
fitting routine throws leaves the boundary with the new scaler and a fresh
unfitted model, so a predict after the failed train answers differently from
the same predict before it — the prior state is not preserved. -/
theorem claim_C3_counterexample :
    (onmessage cexLib ((onmessage cexLib s0W trainMsg1).1) trainMsg2).2.ok = false ∧
    (onmessage cexLib
        ((onmessage cexLib ((onmessage cexLib s0W trainMsg1).1) trainMsg2).1)
        predMsgW).2 ≠
      (onmessage cexLib ((onmessage cexLib s0W trainMsg1).1) predMsgW).2 := by
  with_unfolding_all decide

/-- C3 (amended): a train rejected for missing/empty inputs leaves the
boundary state unchanged; but a train that fails because the model fitting
routine throws has already replaced the boundary state — afterwards the
scaler is the newly fitted scaler of the failed request and the model is
the freshly constructed unfitted model, so a subsequent predict need not
behave as before the failed train. -/
theorem claim_C3_amended {J M : Type} (lib : ModelLib J M) (s : WState M)
    (tid : String) (X : List (List ℚ)) (y : List ℤ ⊕ List (List ℚ))
    (opts : Option J) (e : String)
    (hne : trainInputsMissing X y = false)
    (hfit : lib.fit (lib.construct opts) (transformX X (fitScaler X))
      (oneHotify y (outDimOf y)) = .error e) :
    onmessage lib s ⟨tid, "train", .trainP X y opts⟩ =
      (⟨some (lib.construct opts), some (fitScaler X)⟩, postErr tid e) ∧
    ∀ (X' : List (List ℚ)) (y' : List ℤ ⊕ List (List ℚ)) (opts' : Option J)
      (tid' : String),
      trainInputsMissing X' y' = true →
      onmessage lib s ⟨tid', "train", .trainP X' y' opts'⟩ =
        (s, postErr tid' "train: missing X or y") := by
  constructor
  · simp [onmessage, hne, hfit]
  · intro X' y' opts' tid' hmiss
    simp [onmessage, hmiss]

/-- C3 witness for the amended claim: the concrete failing train replaces the
boundary state with the new scaler and the unfitted model. -/
theorem claim_C3_witness :
    onmessage cexLib s0W trainMsg2 =
      (⟨some [], some (fitScaler [[10]])⟩, postErr "t2" "fit failed") :=
  (claim_C3_amended cexLib s0W "t2" [[10]] (.inl [0]) none "fit failed"
    (by with_unfolding_all decide) (by with_unfolding_all rfl)).1

/-- C6: after a successful train (a stored model), export → reset → import of
the exported state restores the boundary: the scaler comes back unchanged and
a subsequent predict on any input returns the same response as before the
reset.  The external library's serialization round-trip (spec §1: `serialize`
/ `deserialize` of the out-of-scope classifier) is the hypothesis `hres` /
`hpred`. -/
theorem claim_C6_roundtrip {J M : Type} (lib : ModelLib J M) (s : WState M)
    (m m' : M) (hm : s.model = some m)
    (hres : lib.restore (lib.toJSON m) = .ok m')
    (hpred : ∀ z : List ℚ, lib.predict1 m' z = lib.predict1 m z)
    (eid rid iid pid : String) (x : List ℚ) :
    (onmessage lib s ⟨eid, "export", .emptyP⟩).2 =
      postOk eid (.exported (lib.toJSON m) s.scaler) ∧
    (onmessage lib s ⟨eid, "export", .emptyP⟩).1 = s ∧
    ((onmessage lib
        ((onmessage lib ((onmessage lib s ⟨eid, "export", .emptyP⟩).1)
          ⟨rid, "reset", .emptyP⟩).1)
        ⟨iid, "import", .importP (some (lib.toJSON m)) s.scaler⟩).1).scaler =
      s.scaler ∧
    (onmessage lib
      ((onmessage lib
        ((onmessage lib ((onmessage lib s ⟨eid, "export", .emptyP⟩).1)
          ⟨rid, "reset", .emptyP⟩).1)
        ⟨iid, "import", .importP (some (lib.toJSON m)) s.scaler⟩).1)
      ⟨pid, "predict", .predictP x⟩).2 =
    (onmessage lib s ⟨pid, "predict", .predictP x⟩).2 := by
  have hexp : onmessage lib s ⟨eid, "export", .emptyP⟩ =
      (s, postOk eid (.exported (lib.toJSON m) s.scaler)) := by
    simp [onmessage, hm]
  have hrst : onmessage lib s ⟨rid, "reset", .emptyP⟩ =
      (⟨none, none⟩, postOk rid .didReset) := by
    simp [onmessage]
  have himp : onmessage lib (⟨none, none⟩ : WState M)
      ⟨iid, "import", .importP (some (lib.toJSON m)) s.scaler⟩ =
      (⟨some m', s.scaler⟩, postOk iid .imported) := by
    simp [onmessage, hres]
  refine ⟨by rw [hexp], by rw [hexp], ?_, ?_⟩
  · rw [hexp]
    show ((onmessage lib (onmessage lib s ⟨rid, "reset", .emptyP⟩).1 _).1).scaler = _
    rw [hrst]
    show ((onmessage lib (⟨none, none⟩ : WState M) _).1).scaler = _
    rw [himp]
  · rw [hexp]
    show (onmessage lib
      ((onmessage lib (onmessage lib s ⟨rid, "reset", .emptyP⟩).1
        ⟨iid, "import", .importP (some (lib.toJSON m)) s.scaler⟩).1) _).2 = _
    rw [hrst]
    show (onmessage lib
      ((onmessage lib (⟨none, none⟩ : WState M)
        ⟨iid, "import", .importP (some (lib.toJSON m)) s.scaler⟩).1) _).2 = _
    rw [himp]
    show (onmessage lib (⟨some m', s.scaler⟩ : WState M)
      ⟨pid, "predict", .predictP x⟩).2 = _
    simp only [onmessage, hm, hpred]
    cases hval : lib.predict1 m (match s.scaler with
      | some sc => transformOne x sc
      | none => x) <;> simp [hval]

/-- C6 witness: the concrete round-trip with an identity serialization
library reproduces the predict response after export → reset → import. -/
theorem claim_C6_witness :
    (onmessage rtLib
      ((onmessage rtLib
        ((onmessage rtLib ((onmessage rtLib rtState ⟨"e", "export", .emptyP⟩).1)
          ⟨"r", "reset", .emptyP⟩).1)
        ⟨"i", "import", .importP (some (rtLib.toJSON [[1]])) rtState.scaler⟩).1)
      ⟨"p", "predict", .predictP [2]⟩).2 =
    (onmessage rtLib rtState ⟨"p", "predict", .predictP [2]⟩).2 :=
  (claim_C6_roundtrip rtLib rtState [[1]] [[1]] rfl rfl (fun _ => rfl)
    "e" "r" "i" "p" [2]).2.2.2

/-- Powers of two in the clamp range pass the `isPowerOfTwo` check. -/
theorem isPowerOfTwo_pow {k : ℕ} (h8 : 8 ≤ k) (h12 : k ≤ 12) :
    isPowerOfTwo (2 ^ k) = true := by
  interval_cases k <;> decide

theorem toNat_two_pow (k : ℕ) : ((2 : ℤ) ^ k).toNat = 2 ^ k := by
  have h : ((2 : ℤ) ^ k) = ((2 ^ k : ℕ) : ℤ) := by push_cast; ring
  rw [h, Int.toNat_natCast]

/-- Every collected MFCC row comes from a successful Meyda call. -/
theorem mem_mfccsOf {meyda : List ℚ → Option (List ℚ)} {sig : List ℚ} {fs : ℕ}
    {mf : List ℚ} (h : mf ∈ mfccsOf meyda sig fs) : ∃ f, meyda f = some mf := by
  unfold mfccsOf at h
  split at h
  · unfold tailRetry at h
    cases hm : meyda (sig.drop (sig.length - fs)) with
    | none => rw [hm] at h; simp at h
    | some l =>
      rw [hm] at h
      by_cases hl : l.length = 0
      · simp [hl] at h
      · simp [hl] at h
        refine ⟨sig.drop (sig.length - fs), ?_⟩
        rw [hm, h]
  · unfold collectMFCCs at h
    rw [List.mem_filterMap] at h
    obtain ⟨i, _, hi⟩ := h
    cases hm : meyda ((sig.drop i).take fs) with
    | none => rw [hm] at hi; simp at hi
    | some l =>
      rw [hm] at hi
      by_cases hl : l.length = 0
      · simp [hl] at hi
      · simp [hl] at hi
        refine ⟨(sig.drop i).take fs, ?_⟩
        rw [hm, hi]

theorem aggregateMFCC_length (m : List (List ℚ)) :
    (aggregateMFCC m).length = 2 * (m.headD []).length := by
  unfold aggregateMFCC
  simp [List.length_append]
  ring

theorem headD_mem {α : Type} {l : List α} (h : l ≠ []) (d : α) : l.headD d ∈ l := by
  cases l with
  | nil => exact absurd rfl h
  | cons a t => simp

/-- C2: for every input window (empty and shorter-than-one-frame windows
included), every sample rate and every options record, `extract` never throws
and returns a vector of exactly 26 entries, provided the external MFCC kernel
honours its 13-coefficients-per-frame contract; the all-zero vector is the
result when no frame yields coefficients; in particular the non-power-of-two
error branch is unreachable (for every sample rate the chosen frame size is a
power of two clamped to [256, 4096]). -/
theorem claim_C2_extract_total (meyda : List ℚ → Option (List ℚ)) (x : List ℚ)
    (sr : ℕ) (opts : MFCCOptions)
    (hmey : ∀ f l, meyda f = some l → l.length = 13) :
    ∃ v, extractFeaturesMonoFloat32 meyda x sr opts = .ok v ∧ v.length = 26 ∧
      ((∀ f, meyda f = none) → v = List.replicate 26 0) := by
  obtain ⟨k, hk8, hk12, hpick⟩ := pickFrameSize_pow sr
  have hfs : (pickFrameSize sr).toNat = 2 ^ k := by rw [hpick, toNat_two_pow]
  unfold extractFeaturesMonoFloat32
  split
  · exact ⟨_, rfl, by simp, fun _ => rfl⟩
  · split
    · rename_i h2
      exfalso
      rw [hfs, isPowerOfTwo_pow hk8 hk12] at h2
      simp at h2
    · split
      · exact ⟨_, rfl, by simp, fun _ => rfl⟩
      · rename_i h3
        have hne : mfccsOf meyda (prepSignal x (pickFrameSize sr).toNat opts)
            (pickFrameSize sr).toNat ≠ [] := by
          intro hnil
          rw [hnil] at h3
          simp at h3
        refine ⟨_, rfl, ?_, ?_⟩
        · rw [aggregateMFCC_length]
          obtain ⟨f, hf⟩ := mem_mfccsOf (headD_mem hne ([] : List ℚ))
          rw [hmey f _ hf]
        · intro hall
          exfalso
          obtain ⟨f, hf⟩ := mem_mfccsOf (headD_mem hne ([] : List ℚ))
          rw [hall f] at hf
          exact Option.noConfusion hf

/-- C2 witness: the always-failing MFCC kernel on the empty window yields the
all-zero 26-entry vector without an error. -/
theorem claim_C2_witness :
    ∃ v, extractFeaturesMonoFloat32 mey0 [] 0 {} = .ok v ∧ v.length = 26 ∧
      ((∀ f, mey0 f = none) → v = List.replicate 26 0) :=
  claim_C2_extract_total mey0 [] 0 {} (fun f l h => by simp [mey0] at h)

/-- The count-Map key list contains exactly the elements of the history. -/
theorem mem_firstOccs (l : List ℕ) (a : ℕ) : a ∈ firstOccs l ↔ a ∈ l := by
  induction l with
  | nil => simp [firstOccs]
  | cons x xs ih =>
    simp only [firstOccs, List.mem_cons, List.mem_filter, bne_iff_ne]
    constructor
    · rintro (rfl | ⟨h1, h2⟩)
      · exact Or.inl rfl
      · exact Or.inr (ih.mp h1)
    · rintro (rfl | h)
      · exact Or.inl rfl
      · by_cases hx : a = x
        · exact Or.inl hx
        · exact Or.inr ⟨ih.mpr h, hx⟩

/-- The count-Map key list has no duplicates. -/
theorem nodup_firstOccs (l : List ℕ) : (firstOccs l).Nodup := by
  induction l with
  | nil => simp [firstOccs]
  | cons x xs ih =>
    simp only [firstOccs]
    rw [List.nodup_cons]
    constructor
    · intro hmem
      rw [List.mem_filter] at hmem
      simp [bne_iff_ne] at hmem
    · exact List.Nodup.filter _ ih

/-- The count-Map keys appear in order of first occurrence in the history. -/
theorem pairwise_firstOccs (l : List ℕ) :
    (firstOccs l).Pairwise (fun a b => l.indexOf a < l.indexOf b) := by
  induction l with
  | nil => simp [firstOccs]
  | cons x xs ih =>
    simp only [firstOccs]
    rw [List.pairwise_cons]
    constructor
    · intro b hb
      rw [List.mem_filter] at hb
      have hbx : b ≠ x := by simpa [bne_iff_ne] using hb.2
      rw [List.indexOf_cons_self, List.indexOf_cons_ne _ (Ne.symm hbx)]
      omega
    · have hp := List.Pairwise.sublist
        (@List.filter_sublist ℕ (fun k => k != x) (firstOccs xs)) ih
      refine List.Pairwise.imp_of_mem ?_ hp
      intro a b ha hb hab
      have hax : a ≠ x := by
        have := (List.mem_filter.mp ha).2
        simpa [bne_iff_ne] using this
      have hbx : b ≠ x := by
        have := (List.mem_filter.mp hb).2
        simpa [bne_iff_ne] using this
      rw [List.indexOf_cons_ne _ (Ne.symm hax), List.indexOf_cons_ne _ (Ne.symm hbx)]
      omega

/-- If no key beats the current best count, the selection loop keeps the
current best. -/
theorem bestLoop_nobeat (l : List ℕ) : ∀ (ks : List ℕ) (b bc : ℤ),
    (∀ k ∈ ks, (l.count k : ℤ) ≤ bc) → bestLoop l ks (b, bc) = (b, bc) := by
  intro ks
  induction ks with
  | nil => intro b bc _; rfl
  | cons k rest ih =>
    intro b bc h
    simp only [bestLoop]
    rw [if_neg (not_lt.mpr (h k (List.mem_cons_self _ _)))]
    exact ih b bc (fun k2 hk2 => h k2 (List.mem_cons_of_mem _ hk2))

/-- If some key beats the current best count, the selection loop ends on the
first key attaining the maximal count: the result is maximal among all keys
and every equal-count key occurs no earlier in the key list. -/
theorem bestLoop_beat (l : List ℕ) : ∀ (ks : List ℕ) (b bc : ℤ),
    ks.Nodup →
    (∃ k ∈ ks, bc < (l.count k : ℤ)) →
    ∃ kb ∈ ks, bestLoop l ks (b, bc) = ((kb : ℤ), (l.count kb : ℤ)) ∧
      bc < (l.count kb : ℤ) ∧
      (∀ k ∈ ks, l.count k ≤ l.count kb) ∧
      (∀ k ∈ ks, l.count k = l.count kb → ks.indexOf kb ≤ ks.indexOf k) := by
  intro ks
  induction ks with
  | nil => intro b bc _ h; simp at h
  | cons k0 rest ih =>
    intro b bc hnd hbeat
    rw [List.nodup_cons] at hnd
    obtain ⟨hk0, hndr⟩ := hnd
    simp only [bestLoop]
    by_cases h1 : bc < (l.count k0 : ℤ)
    · rw [if_pos h1]
      by_cases h2 : ∃ k ∈ rest, (l.count k0 : ℤ) < (l.count k : ℤ)
      · obtain ⟨kb, hkbr, heq, hlt, hmax, hties⟩ := ih k0 (l.count k0) hndr h2
        refine ⟨kb, List.mem_cons_of_mem _ hkbr, heq, by omega, ?_, ?_⟩
        · intro k hk
          rcases List.mem_cons.mp hk with rfl | hk2
          · omega
          · exact hmax k hk2
        · intro k hk hkeq
          rcases List.mem_cons.mp hk with rfl | hk2
          · exfalso; omega
          · have hkbne : k0 ≠ kb := fun h => hk0 (h ▸ hkbr)
            have hkne : k0 ≠ k := fun h => hk0 (h ▸ hk2)
            rw [List.indexOf_cons_ne _ hkbne, List.indexOf_cons_ne _ hkne]
            have := hties k hk2 hkeq
            omega
      · push_neg at h2
        have hstop := bestLoop_nobeat l rest k0 (l.count k0)
          (fun k hk => h2 k hk)
        rw [hstop]
        refine ⟨k0, List.mem_cons_self _ _, rfl, h1, ?_, ?_⟩
        · intro k hk
          rcases List.mem_cons.mp hk with rfl | hk2
          · exact le_refl _
          · have := h2 k hk2; omega
        · intro k hk hkeq
          rw [List.indexOf_cons_self]
          omega
    · rw [if_neg h1]
      have hbeat2 : ∃ k ∈ rest, bc < (l.count k : ℤ) := by
        obtain ⟨k, hk, hklt⟩ := hbeat
        rcases List.mem_cons.mp hk with rfl | hk2
        · exact absurd hklt h1
        · exact ⟨k, hk2, hklt⟩
      obtain ⟨kb, hkbr, heq, hlt, hmax, hties⟩ := ih b bc hndr hbeat2
      refine ⟨kb, List.mem_cons_of_mem _ hkbr, heq, hlt, ?_, ?_⟩
      · intro k hk
        rcases List.mem_cons.mp hk with rfl | hk2
        · omega
        · exact hmax k hk2
      · intro k hk hkeq
        rcases List.mem_cons.mp hk with rfl | hk2
        · exfalso; omega
        · have hkbne : k0 ≠ kb := fun h => hk0 (h ▸ hkbr)
          have hkne : k0 ≠ k := fun h => hk0 (h ▸ hk2)
          rw [List.indexOf_cons_ne _ hkbne, List.indexOf_cons_ne _ hkne]
          have := hties k hk2 hkeq
          omega

/-- A strictly increasing key list reflects index order back to the history:
keys listed no later have a first occurrence no later. -/
theorem indexOf_le_of_pairwise {ks l : List ℕ}
    (hp : ks.Pairwise (fun a b => l.indexOf a < l.indexOf b))
    {a b : ℕ} (ha : a ∈ ks) (hb : b ∈ ks) (h : ks.indexOf a ≤ ks.indexOf b) :
    l.indexOf a ≤ l.indexOf b := by
  rw [List.pairwise_iff_get] at hp
  have hia : ks.indexOf a < ks.length := List.indexOf_lt_length.mpr ha
  have hib : ks.indexOf b < ks.length := List.indexOf_lt_length.mpr hb
  have hga : ks.get ⟨ks.indexOf a, hia⟩ = a := List.indexOf_get hia
  have hgb : ks.get ⟨ks.indexOf b, hib⟩ = b := List.indexOf_get hib
  rcases eq_or_lt_of_le h with heq | hlt
  · have : a = b := by
      rw [← hga, ← hgb]
      congr 1
      exact Fin.ext heq
    rw [this]
  · have := hp ⟨ks.indexOf a, hia⟩ ⟨ks.indexOf b, hib⟩ (by exact hlt)
    rw [hga, hgb] at this
    exact le_of_lt this

/-- C5: `majority` returns no decision exactly on an empty history; otherwise
it returns a class index of the history attaining the maximal occurrence
count, with ties broken in favor of the class encountered earliest (smallest
first-occurrence index); in particular the history [0,1,0,1] resolves to
class 0. -/
theorem claim_C5_majority (l : List ℕ) :
    (majority l = none ↔ l = []) ∧
    (∀ b : ℤ, majority l = some b →
      ∃ bn : ℕ, b = (bn : ℤ) ∧ bn ∈ l ∧
        (∀ k ∈ l, l.count k ≤ l.count bn) ∧
        (∀ k ∈ l, l.count k = l.count bn → l.indexOf bn ≤ l.indexOf k)) ∧
    majority [0, 1, 0, 1] = some 0 := by
  refine ⟨?_, ?_, by decide⟩
  · unfold majority
    split
    · rename_i h
      rw [List.isEmpty_iff] at h
      simp [h]
    · rename_i h
      rw [List.isEmpty_iff] at h
      simp [h]
  · intro b hb
    unfold majority at hb
    split at hb
    · exact absurd hb (by simp)
    · rename_i hne
      simp only [Option.some_inj] at hb
      have hlne : l ≠ [] := by
        intro hnil
        rw [List.isEmpty_iff] at hne
        exact hne hnil
      have hx : l.headD 0 ∈ l := headD_mem hlne 0
      have hxo : l.headD 0 ∈ firstOccs l := (mem_firstOccs l _).mpr hx
      have hcpos : 0 < l.count (l.headD 0) := List.count_pos_iff.mpr hx
      obtain ⟨kb, hkbmem, heq, hlt, hmax, hties⟩ :=
        bestLoop_beat l (firstOccs l) (-1) (-1) (nodup_firstOccs l)
          ⟨_, hxo, by omega⟩
      rw [heq] at hb
      refine ⟨kb, hb.symm, (mem_firstOccs l _).mp hkbmem, ?_, ?_⟩
      · intro k hk
        exact hmax k ((mem_firstOccs l _).mpr hk)
      · intro k hk hkeq
        exact indexOf_le_of_pairwise (pairwise_firstOccs l) hkbmem
          ((mem_firstOccs l _).mpr hk)
          (hties k ((mem_firstOccs l _).mpr hk) hkeq)

/-- C5 witness: the properties instantiated on the tied history [0,1,0,1]. -/
theorem claim_C5_witness :
    ∃ bn : ℕ, (0 : ℤ) = (bn : ℤ) ∧ bn ∈ [0, 1, 0, 1] ∧
      (∀ k ∈ [0, 1, 0, 1], List.count k [0, 1, 0, 1] ≤ List.count bn [0, 1, 0, 1]) ∧
      (∀ k ∈ [0, 1, 0, 1],
        List.count k [0, 1, 0, 1] = List.count bn [0, 1, 0, 1] →
        List.indexOf bn [0, 1, 0, 1] ≤ List.indexOf k [0, 1, 0, 1]) :=
  (claim_C5_majority [0, 1, 0, 1]).2.1 0 (by decide)

/-- The vote-and-fire stage can emit at most one event, only when the fired
flag was still clear, and it sets the flag when it emits (it never clears
it). -/
theorem tickVote_phi (s : LoopState) (probs : List ℚ) :
    (if (tickVote s probs).2.isSome then 1 else 0) +
      (if ((tickVote s probs).1).utteranceFired then 0 else 1) ≤
    (if s.utteranceFired then 0 else 1) := by
  unfold tickVote
  rcases hmaj : majority (if CONF_THRESHOLD ≤ (argmax probs).2
      then pushPred s.lastPreds (argmax probs).1 else s.lastPreds) with _ | m <;>
    by_cases hf : s.utteranceFired <;>
    by_cases hc : CONF_THRESHOLD ≤ (argmax probs).2 <;>
    simp [hf, hc]

/-- The tick body after VAD handling obeys the same fired-flag discipline. -/
theorem tickBody_phi (meyda : List ℚ → Option (List ℚ)) (sampleRate : ℕ)
    (s : LoopState) (env : TickEnv) :
    (if (tickBody meyda sampleRate s env).2.isSome then 1 else 0) +
      (if ((tickBody meyda sampleRate s env).1).utteranceFired then 0 else 1) ≤
    (if s.utteranceFired then 0 else 1) := by
  unfold tickBody
  rcases hex : extractFeaturesMonoFloat32 meyda env.slice sampleRate MFCC_OPTS with e | feats
  · simp
  · by_cases hall : (feats.all fun v => v == 0) = true
    · simp [hall]
    · rcases hy : env.y with _ | y
      · simp [hall]
      · by_cases hlen : y.length < 2
        · simp [hall, hlen]
        · have h := tickVote_phi s (if 1 / 10 ^ 6 < y.sum
            then y.map (fun v => v / y.sum) else y)
          simpa [hall, hlen] using h

/-- One tick of the realtime loop: the number of emitted Decision Events plus
the end-of-tick fired budget is bounded by the Silence→Speech edge indicator
plus the start-of-tick fired budget. -/
theorem livePredictTick_phi (meyda : List ℚ → Option (List ℚ)) (sampleRate : ℕ)
    (requireVad : Bool) (s : LoopState) (env : TickEnv) :
    (if (livePredictTick meyda sampleRate requireVad s env).2.isSome then 1 else 0) +
      (if ((livePredictTick meyda sampleRate requireVad s env).1).utteranceFired
        then 0 else 1) ≤
    (if (!s.inSpeech && speechNowFn requireVad s.inSpeech (rms env.slice))
        then 1 else 0) +
      (if s.utteranceFired then 0 else 1) := by
  unfold livePredictTick
  split
  · rename_i hedge
    have h := tickBody_phi meyda sampleRate (resetVotes { s with inSpeech := true }) env
    have hphi : (if (resetVotes { s with inSpeech := true }).utteranceFired
        then 0 else 1) = 1 := by
      simp [resetVotes]
    rw [hphi] at h
    exact le_trans h (Nat.le_add_right _ _)
  · rename_i hedge
    split
    · simp
    · split
      · simp
      · have h := tickBody_phi meyda sampleRate s env
        simpa using h

/-- A run of the realtime loop containing no Silence→Speech transition never
clears the fired flag, so it emits at most one Decision Event — and none at
all when the current utterance has already fired. -/
theorem runStats_fires_of_no_edge (meyda : List ℚ → Option (List ℚ))
    (sampleRate : ℕ) (requireVad : Bool) :
    ∀ (s : LoopState) (L : List TickEnv),
    (runStats meyda sampleRate requireVad s L).2 = 0 →
    (runStats meyda sampleRate requireVad s L).1 ≤
      (if s.utteranceFired then 0 else 1) := by
  intro s L
  induction L generalizing s with
  | nil => intro _; simp [runStats]
  | cons env rest ih =>
    intro h0
    simp only [runStats] at h0 ⊢
    have h1 := livePredictTick_phi meyda sampleRate requireVad s env
    have h2 := ih (livePredictTick meyda sampleRate requireVad s env).1 (by omega)
    omega

/-- C1: at most one Decision Event per contiguous speech segment.  A segment
starts at a tick with a Silence→Speech transition (`hedge`) and extends as
long as no further Silence→Speech transition occurs (`hseg`: the edge count
of the rest of the run is zero, so `env :: L` is the interval between one
transition and the next); over the whole segment the loop emits at most one
Decision Event, no matter how many ticks with confident majority predictions
it contains.  The start state is arbitrary, so the same bound applies afresh
to the segment opened by the next Silence→Speech transition — whose first
tick (second through fourth conjuncts) is processed from the reset state:
fired flag cleared and history emptied, allowing at most one more event. -/
theorem claim_C1_per_segment (meyda : List ℚ → Option (List ℚ))
    (sampleRate : ℕ) (requireVad : Bool) (s : LoopState) (env : TickEnv)
    (L : List TickEnv)
    (hedge : (!s.inSpeech && speechNowFn requireVad s.inSpeech (rms env.slice)) = true)
    (hseg : (runStats meyda sampleRate requireVad
      (livePredictTick meyda sampleRate requireVad s env).1 L).2 = 0) :
    (runStats meyda sampleRate requireVad s (env :: L)).1 ≤ 1 ∧
    livePredictTick meyda sampleRate requireVad s env =
      tickBody meyda sampleRate (resetVotes { s with inSpeech := true }) env ∧
    (resetVotes { s with inSpeech := true }).utteranceFired = false ∧
    (resetVotes { s with inSpeech := true }).lastPreds = [] := by
  have htick : livePredictTick meyda sampleRate requireVad s env =
      tickBody meyda sampleRate (resetVotes { s with inSpeech := true }) env := by
    unfold livePredictTick
    rw [if_pos hedge]
  refine ⟨?_, htick, by simp [resetVotes], by simp [resetVotes]⟩
  have hbody := tickBody_phi meyda sampleRate (resetVotes { s with inSpeech := true }) env
  have hphi : (if (resetVotes { s with inSpeech := true }).utteranceFired
      then 0 else 1) = 1 := by
    simp [resetVotes]
  rw [hphi] at hbody
  have hrest := runStats_fires_of_no_edge meyda sampleRate requireVad
    (livePredictTick meyda sampleRate requireVad s env).1 L hseg
  simp only [runStats]
  rw [htick] at hrest ⊢
  omega

/-- C1 witness: from the fresh-listen Silence state, a tick whose window has
energy above the enter threshold opens a speech segment, and the one-tick
segment emits at most one Decision Event. -/
theorem claim_C1_witness :
    (runStats mey0 0 true ⟨false, [], false, none⟩ [⟨[1], none⟩]).1 ≤ 1 :=
  (claim_C1_per_segment mey0 0 true ⟨false, [], false, none⟩ ⟨[1], none⟩ []
    (by with_unfolding_all decide) rfl).1
